import Mathlib

/-!
Verification development for `src/transcode_batch.py`, the batch video
transcoder.  The core of the program — folder scanning
(`TranscodeApp._find_video_files`), collision-free output naming
(`TranscodeApp._get_output_path`), the sequential per-file worker loop
(`TranscodeApp._process_folder` / `_process_single_file`), the
success/failure policy (`_delete_source` / `_handle_transcode_failure`)
and the event stream it emits — is embedded shallowly below.

The filesystem is modelled as the list of paths that currently exist; a
path is a `(directory, file name)` pair.  The external encoder process,
`os.remove` and `Path.unlink` are the nondeterministic environment: each
per-file invocation is resolved by a `FileOracle` describing what the
environment did (the process outcome, whether the process left a file at
the output path, whether the two deletions succeed).  The tkinter layer
is out of scope: per the program's structure the worker communicates
with it only through the queued `(msg_type, message)` events, which are
modelled by `Event`.
-/

namespace TranscodeBatch

/-- Decimal digits of a natural number, most significant first, as Python's
`str` renders them.  Structural recursion on `fuel`; `natToString` supplies
`n + 1` fuel, which always suffices since the argument shrinks by a factor
of ten per step. -/
def natCharsAux : Nat → Nat → List Char
  | 0, _ => []
  | fuel + 1, n =>
    if n < 10 then [Nat.digitChar n]
    else natCharsAux fuel (n / 10) ++ [Nat.digitChar (n % 10)]

/-- Python's `str(n)` / f-string formatting for a non-negative integer. -/
def natToString (n : Nat) : String :=
  String.mk (natCharsAux (n + 1) n)

/-- Python's `str(i)` for an `int` (process return codes may be negative). -/
def intToString (i : Int) : String :=
  if i < 0 then "-" ++ natToString i.natAbs else natToString i.natAbs

/-- `pathlib.PurePath.suffix` of a file name: the part from the last dot on,
but empty when the name has no dot, starts with its only dot (a dotfile) or
ends with the dot (`0 < i < len(name) - 1` in the pathlib source). -/
def pathSuffix (name : String) : String :=
  let cs := name.data
  let ext := (cs.reverse.takeWhile (fun c => c != '.')).reverse
  if 0 < ext.length ∧ ext.length + 1 < cs.length then String.mk ('.' :: ext) else ""

/-- `pathlib.PurePath.stem` of a file name: the name with `pathSuffix`
removed. -/
def pathStem (name : String) : String :=
  String.mk (name.data.take (name.data.length - (pathSuffix name).data.length))

/-- `VIDEO_EXTS` from `transcode_batch.py` line 23: the recognized video
file extensions (a Python `set`, modelled as a list with membership). -/
def VIDEO_EXTS : List String :=
  [".mp4", ".mkv", ".avi", ".mov", ".wmv", ".flv", ".m4v", ".webm"]

/-- `HB_OUTPUT_SUFFIX` from `transcode_batch.py` line 25. -/
def HB_OUTPUT_SUFFIX : String := "_transcoded"

/-- One direct child of the scanned directory: its name and whether it is a
regular file (`Path.is_file()`). -/
structure DirEntry where
  name : String
  isFile : Bool
deriving DecidableEq

/-- Name order on directory entries: `sorted(folder_path.iterdir())` compares
`Path` objects, which for children of one directory is string comparison of
the file names. -/
def entryLE (a b : DirEntry) : Prop := a.name ≤ b.name

instance : DecidableRel entryLE :=
  fun a b => inferInstanceAs (Decidable (a.name ≤ b.name))

instance : IsTotal DirEntry entryLE := ⟨fun a b => le_total a.name b.name⟩

instance : IsTrans DirEntry entryLE := ⟨fun _ _ _ h₁ h₂ => le_trans h₁ h₂⟩

/-- The filter of `_find_video_files`: `f.is_file() and f.suffix.lower() in
VIDEO_EXTS`.  Python's `str.lower` is modelled by `String.toLower`
(the recognized extensions are all ASCII). -/
def isVideoEntry (e : DirEntry) : Bool :=
  e.isFile && decide ((pathSuffix e.name).toLower ∈ VIDEO_EXTS)

/-- `TranscodeApp._find_video_files` (lines 370-377): sort the directory's
children by name, keep the regular files with a recognized extension. -/
def findVideoFiles (entries : List DirEntry) : List DirEntry :=
  (List.insertionSort entryLE entries).filter isVideoEntry

/-- A filesystem path, split as `(directory, file name)`; `Path.with_name`
replaces the second component only. -/
abbrev FsPath := String × String

/-- `str(path)` for a `(directory, file name)` pair. -/
def pathStr (p : FsPath) : String := p.1 ++ "/" ++ p.2

/-- The candidate output names `_get_output_path` tries, in order:
`f'{base_name}{HB_OUTPUT_SUFFIX}.{output_ext}'` first, then
`f'{base_name}{HB_OUTPUT_SUFFIX}_{counter}.{output_ext}'` for
`counter = 1, 2, …`. -/
def candName (base ext : String) : Nat → String
  | 0 => base ++ HB_OUTPUT_SUFFIX ++ "." ++ ext
  | c + 1 => base ++ HB_OUTPUT_SUFFIX ++ "_" ++ natToString (c + 1) ++ "." ++ ext

/-- The `while output_path.exists(): counter += 1` loop of
`_get_output_path`, returning the index of the first candidate that is not
on disk.  The loop is given `fuel` explicitly; `getOutputPath` passes
`fs.length + 1`, which always suffices because the candidates are pairwise
distinct and at most `fs.length` of them can exist. -/
def searchFree (fs : List FsPath) (dir base ext : String) : Nat → Nat → Nat
  | c, 0 => c
  | c, fuel + 1 =>
    if (dir, candName base ext c) ∈ fs then searchFree fs dir base ext (c + 1) fuel else c

/-- `TranscodeApp._get_output_path` (lines 403-416): the first candidate
name, derived from `source_file.stem`, that does not collide with an
existing path; `with_name` keeps the source's directory. -/
def getOutputPath (fs : List FsPath) (src : FsPath) (ext : String) : FsPath :=
  (src.1, candName (pathStem src.2) ext
    (searchFree fs src.1 (pathStem src.2) ext 0 (fs.length + 1)))

/-- One `(msg_type, message)` element of the worker's message queue:
`'info'`/`'debug'`/`'error'` log lines, `('progress', pct)` and
`('progress_text', label)`. -/
inductive Event where
  | log (level : String) (text : String)
  | progress (percent : ℚ)
  | progressText (text : String)
deriving DecidableEq

/-- What `subprocess.run` did for one file: raised `FileNotFoundError`,
raised some other exception, or completed with an exit status and the
captured combined output. -/
inductive ProcOutcome where
  | notFound (msg : String)
  | raised (msg : String)
  | completed (returncode : Int) (stdout : String)
deriving DecidableEq

/-- The environment's behaviour for one per-file step: the process outcome,
whether the process left a file at the allocated output path when it
returned, whether `os.remove(source_file)` succeeds (with the exception
text when it does not), and whether the partial-output
`output_file.unlink()` succeeds. -/
structure FileOracle where
  result : ProcOutcome
  outputCreated : Bool
  deleteOk : Bool
  deleteErr : String
  unlinkOk : Bool
deriving DecidableEq

/-- The inputs `_process_folder` and `_build_hb_command` read: the folder,
the resolved HandBrakeCLI path (with whether `os.path.exists` holds for
it), the presets JSON path, the preset name and the output extension. -/
structure BatchConfig where
  folder : String
  hbPath : String
  hbPathExists : Bool
  presetsPath : String
  preset : String
  outputExt : String
deriving DecidableEq

/-- `TranscodeApp._build_hb_command` (lines 418-429). -/
def buildHbCommand (cfg : BatchConfig) (src out : FsPath) : List String :=
  let command := if cfg.hbPath ≠ "" ∧ cfg.hbPathExists then [cfg.hbPath] else ["HandBrakeCLI"]
  let command := if cfg.presetsPath ≠ "" then
    command ++ ["--preset-import-file", cfg.presetsPath] else command
  let command := if cfg.preset ≠ "" then command ++ ["-Z", cfg.preset] else command
  command ++ ["-i", pathStr src, "-o", pathStr out]

/-- `TranscodeApp._delete_source` (lines 466-472): `os.remove` then an info
log, or an error log when the removal raises. -/
def deleteSource (fs : List FsPath) (src : FsPath) (ok : Bool) (errMsg : String) :
    List FsPath × List Event :=
  if ok then (fs.erase src, [Event.log "info" ("Deleted source: " ++ src.2)])
  else (fs, [Event.log "error" ("Failed to delete source " ++ src.2 ++ ": " ++ errMsg)])

/-- `TranscodeApp._handle_transcode_failure` (lines 474-484): an error log
with the exit code, the captured output logged at debug level, then
best-effort removal of a partial output file — `except Exception: pass`
makes a failing `unlink` leave the file with no event. -/
def handleTranscodeFailure (fs : List FsPath) (src out : FsPath) (returncode : Int)
    (stdout : String) (unlinkOk : Bool) : List FsPath × List Event :=
  let evs := [Event.log "error"
      ("HandBrakeCLI failed for " ++ src.2 ++ " (code " ++ intToString returncode ++ ")."),
    Event.log "debug" stdout]
  if out ∈ fs then (if unlinkOk then (fs.erase out, evs) else (fs, evs)) else (fs, evs)

/-- `TranscodeApp._process_single_file` (lines 379-401): log the header,
allocate the output path, log the command, run the process, then apply the
success/failure policy.  `orc.outputCreated` takes effect only when the
process actually ran (`completed`). -/
def processSingleFile (cfg : BatchConfig) (fs : List FsPath) (srcName : String)
    (orc : FileOracle) (fileNum totalFiles : Nat) : List FsPath × List Event :=
  let src : FsPath := (cfg.folder, srcName)
  let ev0 := Event.log "info"
    ("[" ++ natToString fileNum ++ "/" ++ natToString totalFiles ++ "] Processing: " ++ srcName)
  let out := getOutputPath fs src cfg.outputExt
  let ev1 := Event.log "debug"
    ("Running: " ++ String.intercalate " " (buildHbCommand cfg src out))
  match orc.result with
  | .completed rc stdout =>
    let fs1 := if orc.outputCreated then out :: fs else fs
    if rc = 0 then
      let evS := Event.log "info" ("Success: " ++ srcName ++ " -> " ++ out.2)
      let d := deleteSource fs1 src orc.deleteOk orc.deleteErr
      (d.1, [ev0, ev1, evS] ++ d.2)
    else
      let f := handleTranscodeFailure fs1 src out rc stdout orc.unlinkOk
      (f.1, [ev0, ev1] ++ f.2)
  | .notFound msg =>
    (fs, [ev0, ev1, Event.log "error" ("HandBrakeCLI executable not found: " ++ msg)])
  | .raised msg =>
    (fs, [ev0, ev1, Event.log "error" ("Processing failed for " ++ srcName ++ ": " ++ msg)])

/-- The per-file progress fraction of `_process_folder` line 362:
`(idx / total_files) * 100.0 if total_files else 100.0`. -/
def pct (idx totalFiles : Nat) : ℚ :=
  if totalFiles ≠ 0 then ((idx : ℚ) / (totalFiles : ℚ)) * 100 else 100

/-- The `threading.Event` stop flag as the loop observes it: `stopAt = some k`
means the flag is first seen set at the top-of-iteration check of file `k`
(and, the flag being sticky, at every later check); `none` means it is never
set during the run. -/
def stopSeen (stopAt : Option Nat) (idx : Nat) : Bool :=
  match stopAt with
  | some k => decide (k ≤ idx)
  | none => false

/-- `TranscodeApp._mark_done` (lines 486-494): the terminal log line, the
forced 100-percent progress event and the `'Done'` label. -/
def markDoneEvents : List Event :=
  [Event.log "info" "Processing finished.", Event.progress 100, Event.progressText "Done"]

/-- The `for idx, source_file in enumerate(video_files, start=1)` loop of
`_process_folder` (lines 353-366): check the stop flag, process one file,
report its progress, continue.  Each file's environment behaviour travels
with it as its `FileOracle`. -/
def processLoop (cfg : BatchConfig) (fs : List FsPath) (files : List (String × FileOracle))
    (idx totalFiles : Nat) (stopAt : Option Nat) : List FsPath × List Event :=
  match files with
  | [] => (fs, [])
  | (srcName, orc) :: rest =>
    if stopSeen stopAt idx then (fs, [Event.log "info" "Stopping before next file."])
    else
      let r := processSingleFile cfg fs srcName orc idx totalFiles
      let progEvs := [Event.progress (pct idx totalFiles),
        Event.progressText (natToString idx ++ "/" ++ natToString totalFiles)]
      let rest' := processLoop cfg r.1 rest (idx + 1) totalFiles stopAt
      (rest'.1, r.2 ++ progEvs ++ rest'.2)

/-- `TranscodeApp._process_folder` (lines 334-368): the scan log, the
zero-files error path, otherwise the initial progress events, the per-file
loop and `_mark_done`.  `files` is the scanned video-file list (what
`_find_video_files` returned), each name paired with its per-file
environment behaviour. -/
def processFolder (cfg : BatchConfig) (fs : List FsPath) (files : List (String × FileOracle))
    (stopAt : Option Nat) : List FsPath × List Event :=
  let scanEv := Event.log "info" ("Scanning folder: " ++ cfg.folder)
  match files with
  | [] => (fs, [scanEv, Event.log "error" "No video files found in folder."] ++ markDoneEvents)
  | _ :: _ =>
    let total := files.length
    let initEvs := [Event.progress 0, Event.progressText ("0/" ++ natToString total)]
    let r := processLoop cfg fs files 1 total stopAt
    (r.1, [scanEv] ++ initEvs ++ r.2 ++ markDoneEvents)

/-- A progress event (the `('progress', pct)` queue messages). -/
def isProgress : Event → Bool
  | .progress _ => true
  | _ => false

/-- A progress event whose percent is exactly 100. -/
def isProgress100 : Event → Bool
  | .progress p => decide (p = 100)
  | _ => false

/-- An error-severity log event. -/
def isErrorLog : Event → Bool
  | .log level _ => decide (level = "error")
  | _ => false

/-! ### Decimal formatting is injective -/

theorem natCharsAux_ne_nil {fuel n : Nat} (h : n < fuel) : natCharsAux fuel n ≠ [] := by
  cases fuel with
  | zero => omega
  | succ f =>
    simp only [natCharsAux]
    split <;> simp

theorem digitChar_inj_lt {a b : Nat} (ha : a < 10) (hb : b < 10)
    (h : Nat.digitChar a = Nat.digitChar b) : a = b := by
  interval_cases a <;> interval_cases b <;> revert h <;> decide

theorem natCharsAux_inj : ∀ (f₁ : Nat) {f₂ a b : Nat}, a < f₁ → b < f₂ →
    natCharsAux f₁ a = natCharsAux f₂ b → a = b := by
  intro f₁
  induction f₁ with
  | zero => intro f₂ a b ha _ _; omega
  | succ f ih =>
    intro f₂ a b ha hb h
    cases f₂ with
    | zero => omega
    | succ g =>
      simp only [natCharsAux] at h
      by_cases h10a : a < 10 <;> by_cases h10b : b < 10
      · rw [if_pos h10a, if_pos h10b] at h
        exact digitChar_inj_lt h10a h10b (List.cons.inj h).1
      · rw [if_pos h10a, if_neg h10b] at h
        have hdiv : b / 10 < g := by
          have := Nat.div_lt_self (show 0 < b by omega) (show 1 < 10 by omega)
          omega
        have hlen := congrArg List.length h
        simp only [List.length_cons, List.length_nil, List.length_append] at hlen
        exact absurd (List.length_eq_zero.mp (by omega))
          (natCharsAux_ne_nil hdiv)
      · rw [if_neg h10a, if_pos h10b] at h
        have hdiv : a / 10 < f := by
          have := Nat.div_lt_self (show 0 < a by omega) (show 1 < 10 by omega)
          omega
        have hlen := congrArg List.length h
        simp only [List.length_cons, List.length_nil, List.length_append] at hlen
        exact absurd (List.length_eq_zero.mp (by omega))
          (natCharsAux_ne_nil hdiv)
      · rw [if_neg h10a, if_neg h10b] at h
        have h' := congrArg List.reverse h
        simp only [List.reverse_append, List.reverse_cons, List.reverse_nil, List.nil_append,
          List.singleton_append] at h'
        obtain ⟨hxy, hAB⟩ := List.cons.inj h'
        have hA : natCharsAux f (a / 10) = natCharsAux g (b / 10) := by
          simpa using congrArg List.reverse hAB
        have hdiva : a / 10 < f := by
          have := Nat.div_lt_self (show 0 < a by omega) (show 1 < 10 by omega)
          omega
        have hdivb : b / 10 < g := by
          have := Nat.div_lt_self (show 0 < b by omega) (show 1 < 10 by omega)
          omega
        have hq : a / 10 = b / 10 := ih hdiva hdivb hA
        have hm : a % 10 = b % 10 :=
          digitChar_inj_lt (Nat.mod_lt _ (by omega)) (Nat.mod_lt _ (by omega)) hxy
        omega

theorem natToString_injective : Function.Injective natToString := by
  intro a b h
  exact natCharsAux_inj (a + 1) (Nat.lt_succ_self a) (Nat.lt_succ_self b)
    (congrArg String.data h)

/-! ### The candidate output names are pairwise distinct -/

theorem dot_data : (".").data = ['.'] := rfl

theorem underscore_data : ("_").data = ['_'] := rfl

theorem candName_inj (base ext : String) : Function.Injective (candName base ext) := by
  intro c₁ c₂ h
  match c₁, c₂ with
  | 0, 0 => rfl
  | 0, c + 1 =>
    exfalso
    have hd := congrArg String.data h
    simp only [candName, String.data_append, List.append_assoc, dot_data, underscore_data,
      List.singleton_append] at hd
    have h2 := List.append_cancel_left hd
    have h3 := List.append_cancel_left h2
    exact absurd (List.cons.inj h3).1 (by decide)
  | c + 1, 0 =>
    exfalso
    have hd := congrArg String.data h
    simp only [candName, String.data_append, List.append_assoc, dot_data, underscore_data,
      List.singleton_append] at hd
    have h2 := List.append_cancel_left hd
    have h3 := List.append_cancel_left h2
    exact absurd (List.cons.inj h3).1 (by decide)
  | c + 1, c' + 1 =>
    have hd := congrArg String.data h
    simp only [candName, String.data_append, List.append_assoc, dot_data, underscore_data,
      List.singleton_append] at hd
    have h2 := List.append_cancel_left hd
    have h3 := List.append_cancel_left h2
    have h4 := (List.cons.inj h3).2
    have h5 := (List.append_inj' h4 rfl).1
    have h6 : natToString (c + 1) = natToString (c' + 1) := String.ext h5
    have := natToString_injective h6
    omega

/-! ### The allocator's search always finds a fresh name -/

theorem exists_cand_notMem (fs : List FsPath) (dir base ext : String) :
    ∃ d, d ≤ fs.length ∧ (dir, candName base ext d) ∉ fs := by
  by_contra hc
  push_neg at hc
  have hinj : Function.Injective (fun d => ((dir, candName base ext d) : FsPath)) := by
    intro x y hxy
    exact candName_inj base ext (congrArg Prod.snd hxy)
  have hnd : ((List.range (fs.length + 1)).map
      (fun d => ((dir, candName base ext d) : FsPath))).Nodup :=
    (List.nodup_range _).map hinj
  have hsub : ((List.range (fs.length + 1)).map
      (fun d => ((dir, candName base ext d) : FsPath))).toFinset ⊆ fs.toFinset := by
    intro p hp
    rw [List.mem_toFinset] at hp ⊢
    simp only [List.mem_map, List.mem_range] at hp
    obtain ⟨d, hd, rfl⟩ := hp
    exact hc d (by omega)
  have h1 : ((List.range (fs.length + 1)).map
      (fun d => ((dir, candName base ext d) : FsPath))).toFinset.card = fs.length + 1 := by
    rw [List.toFinset_card_of_nodup hnd]
    simp
  have h4 := Finset.card_le_card hsub
  have h5 := fs.toFinset_card_le
  omega

theorem searchFree_spec (fs : List FsPath) (dir base ext : String) :
    ∀ (fuel c : Nat), (∃ d, d < fuel ∧ (dir, candName base ext (c + d)) ∉ fs) →
      c ≤ searchFree fs dir base ext c fuel ∧
      (dir, candName base ext (searchFree fs dir base ext c fuel)) ∉ fs ∧
      ∀ m, c ≤ m → m < searchFree fs dir base ext c fuel → (dir, candName base ext m) ∈ fs := by
  intro fuel
  induction fuel with
  | zero =>
    rintro c ⟨d, hd, _⟩
    omega
  | succ f ih =>
    rintro c ⟨d, hd, hfree⟩
    by_cases hmem : (dir, candName base ext c) ∈ fs
    · have hd0 : d ≠ 0 := by
        rintro rfl
        exact hfree hmem
      have hex : ∃ e, e < f ∧ (dir, candName base ext (c + 1 + e)) ∉ fs :=
        ⟨d - 1, by omega, by rwa [show c + 1 + (d - 1) = c + d by omega]⟩
      obtain ⟨h1, h2, h3⟩ := ih (c + 1) hex
      simp only [searchFree, if_pos hmem]
      refine ⟨by omega, h2, ?_⟩
      intro m hcm hm
      rcases Nat.eq_or_lt_of_le hcm with rfl | hlt
      · exact hmem
      · exact h3 m hlt hm
    · simp only [searchFree, if_neg hmem]
      exact ⟨le_refl c, hmem, by omega⟩

theorem getOutputPath_spec (fs : List FsPath) (src : FsPath) (ext : String) :
    getOutputPath fs src ext =
      (src.1, candName (pathStem src.2) ext
        (searchFree fs src.1 (pathStem src.2) ext 0 (fs.length + 1))) ∧
    getOutputPath fs src ext ∉ fs ∧
    ∀ m, m < searchFree fs src.1 (pathStem src.2) ext 0 (fs.length + 1) →
      (src.1, candName (pathStem src.2) ext m) ∈ fs := by
  obtain ⟨d, hd, hfree⟩ := exists_cand_notMem fs src.1 (pathStem src.2) ext
  obtain ⟨h1, h2, h3⟩ := searchFree_spec fs src.1 (pathStem src.2) ext (fs.length + 1) 0
    ⟨d, by omega, by simpa using hfree⟩
  refine ⟨rfl, h2, fun m hm => h3 m (Nat.zero_le m) hm⟩

theorem candName_shape (base ext : String) (c : Nat) :
    (∃ t, candName base ext c = base ++ HB_OUTPUT_SUFFIX ++ t) ∧
    (∃ p, candName base ext c = p ++ "." ++ ext) := by
  cases c with
  | zero =>
    exact ⟨⟨"." ++ ext, by simp [candName, String.append_assoc]⟩,
      ⟨base ++ HB_OUTPUT_SUFFIX, rfl⟩⟩
  | succ c =>
    refine ⟨⟨"_" ++ natToString (c + 1) ++ "." ++ ext, ?_⟩,
      ⟨base ++ HB_OUTPUT_SUFFIX ++ "_" ++ natToString (c + 1), rfl⟩⟩
    simp [candName, String.append_assoc]

/-! ### Claim theorems about the scanner and the output-path allocator -/

/-- C4: scanning a directory returns exactly its direct-child entries that
are regular files whose extension, lowercased, is in the recognized set
`VIDEO_EXTS`, ordered ascending by name: the result is a permutation of the
filtered input (so nothing else is included), membership is exactly the
is-a-video-file condition, and the result is sorted by name. -/
theorem findVideoFiles_scan_spec (entries : List DirEntry) :
    (findVideoFiles entries).Perm (entries.filter isVideoEntry) ∧
    (∀ e, e ∈ findVideoFiles entries ↔
      e ∈ entries ∧ e.isFile = true ∧ (pathSuffix e.name).toLower ∈ VIDEO_EXTS) ∧
    List.Sorted entryLE (findVideoFiles entries) := by
  refine ⟨(List.perm_insertionSort entryLE entries).filter isVideoEntry, ?_, ?_⟩
  · intro e
    rw [findVideoFiles, List.mem_filter]
    rw [(List.perm_insertionSort entryLE entries).mem_iff]
    simp [isVideoEntry]
  · exact (List.sorted_insertionSort entryLE entries).filter isVideoEntry

/-- C5: output-path allocation tries `{stem}_transcoded.{ext}` and then the
numeric suffixes `_1`, `_2`, … in increasing order, returning the first
candidate that is free: every candidate below the returned index exists on
disk, the returned path equals no path existing at call time, and when the
returned name is then created, the next allocation returns a strictly
larger suffix index. -/
theorem getOutputPath_first_free (fs : List FsPath) (src : FsPath) (ext : String) :
    ∃ c, getOutputPath fs src ext = (src.1, candName (pathStem src.2) ext c) ∧
      (∀ m, m < c → (src.1, candName (pathStem src.2) ext m) ∈ fs) ∧
      getOutputPath fs src ext ∉ fs ∧
      ∃ c', c < c' ∧
        getOutputPath (getOutputPath fs src ext :: fs) src ext =
          (src.1, candName (pathStem src.2) ext c') := by
  obtain ⟨he, hf, hmin⟩ := getOutputPath_spec fs src ext
  refine ⟨_, he, hmin, hf, ?_⟩
  obtain ⟨he', hf', hmin'⟩ := getOutputPath_spec (getOutputPath fs src ext :: fs) src ext
  refine ⟨_, ?_, he'⟩
  rcases lt_trichotomy
    (searchFree fs src.1 (pathStem src.2) ext 0 (fs.length + 1))
    (searchFree (getOutputPath fs src ext :: fs) src.1 (pathStem src.2) ext 0
      ((getOutputPath fs src ext :: fs).length + 1)) with h | h | h
  · exact h
  · exfalso
    apply hf'
    rw [he', ← h, ← he]
    exact List.mem_cons_self _ _
  · exfalso
    apply hf'
    rw [he']
    exact List.mem_cons_of_mem _ (hmin _ h)

/-- C6: output-path allocation is a pure function of the filesystem state at
call time: two calls over filesystem states with the same existing paths
(in particular, two calls over the same state with nothing created in
between) return the same path. -/
theorem getOutputPath_pure_in_fs_state (fs₁ fs₂ : List FsPath) (src : FsPath) (ext : String)
    (hset : ∀ p, p ∈ fs₁ ↔ p ∈ fs₂) :
    getOutputPath fs₁ src ext = getOutputPath fs₂ src ext := by
  obtain ⟨he₁, hf₁, hm₁⟩ := getOutputPath_spec fs₁ src ext
  obtain ⟨he₂, hf₂, hm₂⟩ := getOutputPath_spec fs₂ src ext
  rw [he₁] at hf₁
  rw [he₂] at hf₂
  rw [he₁, he₂]
  have hc : searchFree fs₁ src.1 (pathStem src.2) ext 0 (fs₁.length + 1) =
      searchFree fs₂ src.1 (pathStem src.2) ext 0 (fs₂.length + 1) := by
    rcases lt_trichotomy
      (searchFree fs₁ src.1 (pathStem src.2) ext 0 (fs₁.length + 1))
      (searchFree fs₂ src.1 (pathStem src.2) ext 0 (fs₂.length + 1)) with h | h | h
    · exact absurd ((hset _).mpr (hm₂ _ h)) hf₁
    · exact h
    · exact absurd ((hset _).mp (hm₁ _ h)) hf₂
  rw [hc]

theorem getOutputPath_pure_in_fs_state_witness :
    (∀ p : FsPath, p ∈ [(("d", "a_transcoded.mp4") : FsPath), ("d", "a_transcoded.mp4")] ↔
      p ∈ [(("d", "a_transcoded.mp4") : FsPath)]) ∧
    getOutputPath [("d", "a_transcoded.mp4"), ("d", "a_transcoded.mp4")] ("d", "a.mp4") "mp4" =
      getOutputPath [("d", "a_transcoded.mp4")] ("d", "a.mp4") "mp4" :=
  ⟨by simp, getOutputPath_pure_in_fs_state _ _ _ _ (by simp)⟩

/-- C10: every allocated output path lies in the same directory as its
source file, and its file name starts with the source's stem followed by
`_transcoded` and ends with a dot followed by the requested extension. -/
theorem getOutputPath_dir_and_name_shape (fs : List FsPath) (src : FsPath) (ext : String) :
    (getOutputPath fs src ext).1 = src.1 ∧
    (∃ t, (getOutputPath fs src ext).2 = pathStem src.2 ++ HB_OUTPUT_SUFFIX ++ t) ∧
    (∃ p, (getOutputPath fs src ext).2 = p ++ "." ++ ext) :=
  ⟨rfl, candName_shape (pathStem src.2) ext _⟩

/-! ### Helper lemmas about one per-file step -/

theorem log_ne_of_text_head {c₁ c₂ : Char} (hc : c₁ ≠ c₂) {t₁ t₂ : String}
    (h₁ : t₁.data.head? = some c₁) (h₂ : t₂.data.head? = some c₂) (lv₁ lv₂ : String) :
    Event.log lv₁ t₁ ≠ Event.log lv₂ t₂ := by
  intro he
  injection he with hl ht
  rw [ht, h₂] at h₁
  exact hc (Option.some.inj h₁.symm)

theorem log_ne_of_level {lv₁ lv₂ : String} (t₁ t₂ : String) (h : lv₁ ≠ lv₂) :
    Event.log lv₁ t₁ ≠ Event.log lv₂ t₂ := by
  intro he
  injection he with h₁ h₂
  exact h h₁

theorem handleTranscodeFailure_events (fs : List FsPath) (src out : FsPath) (rc : Int)
    (sout : String) (uk : Bool) :
    (handleTranscodeFailure fs src out rc sout uk).2 =
      [Event.log "error"
          ("HandBrakeCLI failed for " ++ src.2 ++ " (code " ++ intToString rc ++ ")."),
        Event.log "debug" sout] := by
  simp only [handleTranscodeFailure]
  split_ifs <;> rfl

theorem processSingleFile_events_success {cfg : BatchConfig} {fs : List FsPath}
    {srcName sout de : String} {oc dk uk : Bool} {fileNum totalFiles : Nat} :
    (processSingleFile cfg fs srcName ⟨.completed 0 sout, oc, dk, de, uk⟩
        fileNum totalFiles).2 =
      [Event.log "info" ("[" ++ natToString fileNum ++ "/" ++ natToString totalFiles
          ++ "] Processing: " ++ srcName),
        Event.log "debug" ("Running: " ++ String.intercalate " "
          (buildHbCommand cfg (cfg.folder, srcName)
            (getOutputPath fs (cfg.folder, srcName) cfg.outputExt))),
        Event.log "info" ("Success: " ++ srcName ++ " -> "
          ++ (getOutputPath fs (cfg.folder, srcName) cfg.outputExt).2)]
      ++ [if dk then Event.log "info" ("Deleted source: " ++ srcName)
          else Event.log "error" ("Failed to delete source " ++ srcName ++ ": " ++ de)] := by
  cases dk <;> simp [processSingleFile, deleteSource]

theorem processSingleFile_fs_success {cfg : BatchConfig} {fs : List FsPath}
    {srcName sout de : String} {oc dk uk : Bool} {fileNum totalFiles : Nat} :
    (processSingleFile cfg fs srcName ⟨.completed 0 sout, oc, dk, de, uk⟩
        fileNum totalFiles).1 =
      if dk then
        (if oc then getOutputPath fs (cfg.folder, srcName) cfg.outputExt :: fs else fs).erase
          (cfg.folder, srcName)
      else (if oc then getOutputPath fs (cfg.folder, srcName) cfg.outputExt :: fs else fs) := by
  cases dk <;> cases oc <;> simp [processSingleFile, deleteSource]

theorem processSingleFile_events_failure {rc : Int} (hrc : rc ≠ 0) {cfg : BatchConfig}
    {fs : List FsPath} {srcName sout de : String} {oc dk uk : Bool} {fileNum totalFiles : Nat} :
    (processSingleFile cfg fs srcName ⟨.completed rc sout, oc, dk, de, uk⟩
        fileNum totalFiles).2 =
      [Event.log "info" ("[" ++ natToString fileNum ++ "/" ++ natToString totalFiles
          ++ "] Processing: " ++ srcName),
        Event.log "debug" ("Running: " ++ String.intercalate " "
          (buildHbCommand cfg (cfg.folder, srcName)
            (getOutputPath fs (cfg.folder, srcName) cfg.outputExt))),
        Event.log "error"
          ("HandBrakeCLI failed for " ++ srcName ++ " (code " ++ intToString rc ++ ")."),
        Event.log "debug" sout] := by
  simp [processSingleFile, hrc, handleTranscodeFailure_events]

theorem processSingleFile_fs_failure {rc : Int} (hrc : rc ≠ 0) {cfg : BatchConfig}
    {fs : List FsPath} {srcName sout de : String} {oc dk uk : Bool} {fileNum totalFiles : Nat} :
    (processSingleFile cfg fs srcName ⟨.completed rc sout, oc, dk, de, uk⟩
        fileNum totalFiles).1 =
      (handleTranscodeFailure
        (if oc then getOutputPath fs (cfg.folder, srcName) cfg.outputExt :: fs else fs)
        (cfg.folder, srcName) (getOutputPath fs (cfg.folder, srcName) cfg.outputExt)
        rc sout uk).1 := by
  cases oc <;> simp [processSingleFile, hrc]

theorem processSingleFile_events_notFound {cfg : BatchConfig} {fs : List FsPath}
    {srcName msg : String} {oc dk uk : Bool} {de : String} {fileNum totalFiles : Nat} :
    (processSingleFile cfg fs srcName ⟨.notFound msg, oc, dk, de, uk⟩ fileNum totalFiles).2 =
      [Event.log "info" ("[" ++ natToString fileNum ++ "/" ++ natToString totalFiles
          ++ "] Processing: " ++ srcName),
        Event.log "debug" ("Running: " ++ String.intercalate " "
          (buildHbCommand cfg (cfg.folder, srcName)
            (getOutputPath fs (cfg.folder, srcName) cfg.outputExt))),
        Event.log "error" ("HandBrakeCLI executable not found: " ++ msg)] := by
  simp [processSingleFile]

theorem processSingleFile_events_raised {cfg : BatchConfig} {fs : List FsPath}
    {srcName msg : String} {oc dk uk : Bool} {de : String} {fileNum totalFiles : Nat} :
    (processSingleFile cfg fs srcName ⟨.raised msg, oc, dk, de, uk⟩ fileNum totalFiles).2 =
      [Event.log "info" ("[" ++ natToString fileNum ++ "/" ++ natToString totalFiles
          ++ "] Processing: " ++ srcName),
        Event.log "debug" ("Running: " ++ String.intercalate " "
          (buildHbCommand cfg (cfg.folder, srcName)
            (getOutputPath fs (cfg.folder, srcName) cfg.outputExt))),
        Event.log "error" ("Processing failed for " ++ srcName ++ ": " ++ msg)] := by
  simp [processSingleFile]

/-! ### Claim theorems about one per-file step -/

/-- C7: for an encoder invocation that ran to completion, the success log
event is emitted exactly when the exit status equals zero; the encode
failure error event (carrying the exit code) is emitted exactly when the
exit status is non-zero, in which case the captured combined output is
also logged. -/
theorem encode_success_iff_exit_zero (cfg : BatchConfig) (fs : List FsPath) (srcName : String)
    (rc : Int) (sout : String) (oc dk uk : Bool) (de : String) (fileNum totalFiles : Nat) :
    (Event.log "info" ("Success: " ++ srcName ++ " -> "
        ++ (getOutputPath fs (cfg.folder, srcName) cfg.outputExt).2)
        ∈ (processSingleFile cfg fs srcName ⟨.completed rc sout, oc, dk, de, uk⟩
            fileNum totalFiles).2
      ↔ rc = 0) ∧
    (Event.log "error"
        ("HandBrakeCLI failed for " ++ srcName ++ " (code " ++ intToString rc ++ ").")
        ∈ (processSingleFile cfg fs srcName ⟨.completed rc sout, oc, dk, de, uk⟩
            fileNum totalFiles).2
      ↔ rc ≠ 0) ∧
    (rc ≠ 0 → Event.log "debug" sout
        ∈ (processSingleFile cfg fs srcName ⟨.completed rc sout, oc, dk, de, uk⟩
            fileNum totalFiles).2) := by
  by_cases hrc : rc = 0
  · subst hrc
    rw [processSingleFile_events_success]
    refine ⟨by simp, ?_, by simp⟩
    simp only [ne_eq, not_true_eq_false, iff_false]
    intro hmem
    simp only [List.cons_append, List.nil_append, List.mem_cons, List.not_mem_nil,
      or_false] at hmem
    rcases hmem with h | h | h | h
    · exact log_ne_of_level _ _ (by decide) h
    · exact log_ne_of_level _ _ (by decide) h
    · exact log_ne_of_level _ _ (by decide) h
    · cases dk with
      | true =>
        have h' : (Event.log "error" ("HandBrakeCLI failed for " ++ srcName
            ++ " (code " ++ intToString 0 ++ ").") : Event) =
            Event.log "info" ("Deleted source: " ++ srcName) := by simpa using h
        exact log_ne_of_level _ _ (by decide) h'
      | false =>
        have h' : (Event.log "error" ("HandBrakeCLI failed for " ++ srcName
            ++ " (code " ++ intToString 0 ++ ").") : Event) =
            Event.log "error" ("Failed to delete source " ++ srcName ++ ": " ++ de) := by
          simpa using h
        exact log_ne_of_text_head (show 'H' ≠ 'F' by decide) (by exact rfl) (by exact rfl)
          _ _ h'
  · rw [processSingleFile_events_failure hrc]
    refine ⟨?_, by simp [hrc], by simp⟩
    simp only [hrc, iff_false]
    intro hmem
    simp only [List.mem_cons, List.not_mem_nil, or_false] at hmem
    rcases hmem with h | h | h | h
    · exact log_ne_of_text_head (show 'S' ≠ '[' by decide) (by exact rfl) (by exact rfl)
        _ _ h
    · exact log_ne_of_level _ _ (by decide) h
    · exact log_ne_of_level _ _ (by decide) h
    · exact log_ne_of_level _ _ (by decide) h

theorem encode_success_iff_exit_zero_witness :
    (Event.log "info" ("Success: " ++ "a.mp4" ++ " -> "
        ++ (getOutputPath [] ("d", "a.mp4") "mp4").2)
        ∈ (processSingleFile ⟨"d", "hb", true, "", "p", "mp4"⟩ [] "a.mp4"
            ⟨.completed 1 "boom", true, true, "", true⟩ 1 1).2
      ↔ (1 : Int) = 0) ∧
    (Event.log "error" ("HandBrakeCLI failed for " ++ "a.mp4" ++ " (code "
        ++ intToString 1 ++ ").")
        ∈ (processSingleFile ⟨"d", "hb", true, "", "p", "mp4"⟩ [] "a.mp4"
            ⟨.completed 1 "boom", true, true, "", true⟩ 1 1).2
      ↔ (1 : Int) ≠ 0) ∧
    ((1 : Int) ≠ 0 → Event.log "debug" "boom"
        ∈ (processSingleFile ⟨"d", "hb", true, "", "p", "mp4"⟩ [] "a.mp4"
            ⟨.completed 1 "boom", true, true, "", true⟩ 1 1).2) :=
  encode_success_iff_exit_zero ⟨"d", "hb", true, "", "p", "mp4"⟩ [] "a.mp4" 1 "boom"
    true true true "" 1 1

/-- C1 counterexample: the code does not check that the output file exists
before deleting the source.  Concretely: the folder `d` holds only
`a.mp4`; the allocated output path is `d/a_transcoded.mp4`; the encoder
process exits with status zero but creates no output file; the source is
deleted anyway, leaving an empty directory — the source was deleted while
the output file is absent, which the claim says never happens. -/
theorem source_deleted_without_output_cex :
    getOutputPath [("d", "a.mp4")] ("d", "a.mp4") "mp4" = ("d", "a_transcoded.mp4") ∧
    (processSingleFile ⟨"d", "hb", true, "", "p", "mp4"⟩ [("d", "a.mp4")] "a.mp4"
      ⟨.completed 0 "out", false, true, "", true⟩ 1 1).1 = [] := by
  constructor
  · decide
  · decide

/-- C1 (amended): a source file is deleted if and only if the encoder
invocation for it reports exit status zero AND the `os.remove` call
succeeds; the code never checks whether the output file exists, so
deletion happens on a zero exit status even when no output file was
produced. -/
theorem source_deleted_iff_exit_zero_and_remove_ok (cfg : BatchConfig) (fs : List FsPath)
    (srcName : String) (rc : Int) (sout de : String) (oc dk uk : Bool)
    (fileNum totalFiles : Nat) (hnd : fs.Nodup) (hsrc : (cfg.folder, srcName) ∈ fs) :
    ((cfg.folder, srcName) ∉ (processSingleFile cfg fs srcName
        ⟨.completed rc sout, oc, dk, de, uk⟩ fileNum totalFiles).1
      ↔ (rc = 0 ∧ dk = true)) := by
  have hout : getOutputPath fs (cfg.folder, srcName) cfg.outputExt ∉ fs :=
    (getOutputPath_spec fs (cfg.folder, srcName) cfg.outputExt).2.1
  have hne : (cfg.folder, srcName) ≠ getOutputPath fs (cfg.folder, srcName) cfg.outputExt := by
    intro h
    rw [← h] at hout
    exact hout hsrc
  have hsrc1 : (cfg.folder, srcName) ∈
      (if oc then getOutputPath fs (cfg.folder, srcName) cfg.outputExt :: fs else fs) := by
    cases oc <;> simp [hsrc]
  have hnd1 : (if oc then getOutputPath fs (cfg.folder, srcName) cfg.outputExt :: fs
      else fs).Nodup := by
    cases oc <;> simp [hnd, hout]
  by_cases hrc : rc = 0
  · subst hrc
    rw [processSingleFile_fs_success]
    cases dk with
    | true =>
      simp only [if_true, eq_self_iff_true, true_and, iff_true]
      exact hnd1.not_mem_erase
    | false =>
      simp only [if_false, Bool.false_eq_true, and_false, iff_false, not_not]
      exact hsrc1
  · rw [processSingleFile_fs_failure hrc]
    simp only [hrc, false_and, iff_false, not_not]
    cases oc with
    | true =>
      show (cfg.folder, srcName) ∈ (handleTranscodeFailure
        (getOutputPath fs (cfg.folder, srcName) cfg.outputExt :: fs)
        (cfg.folder, srcName) (getOutputPath fs (cfg.folder, srcName) cfg.outputExt)
        rc sout uk).1
      simp only [handleTranscodeFailure]
      split_ifs <;>
        first
        | exact (List.mem_erase_of_ne hne).mpr (List.mem_cons_of_mem _ hsrc)
        | exact List.mem_cons_of_mem _ hsrc
    | false =>
      show (cfg.folder, srcName) ∈ (handleTranscodeFailure fs
        (cfg.folder, srcName) (getOutputPath fs (cfg.folder, srcName) cfg.outputExt)
        rc sout uk).1
      simp only [handleTranscodeFailure]
      split_ifs <;>
        first
        | exact (List.mem_erase_of_ne hne).mpr hsrc
        | exact hsrc

theorem source_deleted_iff_exit_zero_and_remove_ok_witness :
    ([(("d", "a.mp4") : FsPath)].Nodup) ∧ ((("d", "a.mp4") : FsPath) ∈ [(("d", "a.mp4") : FsPath)]) ∧
    ((("d", "a.mp4") : FsPath) ∉ (processSingleFile ⟨"d", "hb", true, "", "p", "mp4"⟩
        [("d", "a.mp4")] "a.mp4" ⟨.completed 0 "out", true, true, "", true⟩ 1 1).1
      ↔ ((0 : Int) = 0 ∧ true = true)) :=
  ⟨by decide, by decide,
    source_deleted_iff_exit_zero_and_remove_ok ⟨"d", "hb", true, "", "p", "mp4"⟩
      [("d", "a.mp4")] "a.mp4" 0 "out" "" true true true 1 1 (by decide) (by decide)⟩

/-- C3 counterexample: in the run on folder `d` where the encoder exits
with status 1 having produced a partial output and the cleanup `unlink`
then fails, the partial output remains on disk, yet the emitted events are
exactly the events of the same run with a succeeding cleanup, and only one
error-severity event (the one for the encode failure itself) appears: the
cleanup failure produced no log event at all. -/
theorem cleanup_failure_swallowed_cex :
    (processSingleFile ⟨"d", "hb", true, "", "p", "mp4"⟩ [("d", "a.mp4")] "a.mp4"
        ⟨.completed 1 "boom", true, true, "", false⟩ 1 1).2 =
      (processSingleFile ⟨"d", "hb", true, "", "p", "mp4"⟩ [("d", "a.mp4")] "a.mp4"
        ⟨.completed 1 "boom", true, true, "", true⟩ 1 1).2 ∧
    ("d", "a_transcoded.mp4") ∈ (processSingleFile ⟨"d", "hb", true, "", "p", "mp4"⟩
        [("d", "a.mp4")] "a.mp4" ⟨.completed 1 "boom", true, true, "", false⟩ 1 1).1 ∧
    ("d", "a_transcoded.mp4") ∉ (processSingleFile ⟨"d", "hb", true, "", "p", "mp4"⟩
        [("d", "a.mp4")] "a.mp4" ⟨.completed 1 "boom", true, true, "", true⟩ 1 1).1 ∧
    ((processSingleFile ⟨"d", "hb", true, "", "p", "mp4"⟩ [("d", "a.mp4")] "a.mp4"
        ⟨.completed 1 "boom", true, true, "", false⟩ 1 1).2.filter isErrorLog).length = 1 :=
  ⟨by decide, by decide, by decide, by decide⟩

/-- C3 (amended): encoder-not-found, a subprocess exception, a non-zero
exit status and a failing source deletion each emit an error-severity log
event, but a partial-output cleanup failure is silently swallowed: the
emitted event trace is identical whether or not the cleanup `unlink`
succeeds, so no event reports that failure. -/
theorem error_paths_log_error (cfg : BatchConfig) (fs : List FsPath)
    (srcName msg sout de : String) (rc : Int) (oc dk uk : Bool)
    (fileNum totalFiles : Nat) :
    (Event.log "error" ("HandBrakeCLI executable not found: " ++ msg)
      ∈ (processSingleFile cfg fs srcName ⟨.notFound msg, oc, dk, de, uk⟩
          fileNum totalFiles).2) ∧
    (Event.log "error" ("Processing failed for " ++ srcName ++ ": " ++ msg)
      ∈ (processSingleFile cfg fs srcName ⟨.raised msg, oc, dk, de, uk⟩
          fileNum totalFiles).2) ∧
    (rc ≠ 0 → Event.log "error"
        ("HandBrakeCLI failed for " ++ srcName ++ " (code " ++ intToString rc ++ ").")
      ∈ (processSingleFile cfg fs srcName ⟨.completed rc sout, oc, dk, de, uk⟩
          fileNum totalFiles).2) ∧
    (Event.log "error" ("Failed to delete source " ++ srcName ++ ": " ++ de)
      ∈ (processSingleFile cfg fs srcName ⟨.completed 0 sout, oc, false, de, uk⟩
          fileNum totalFiles).2) ∧
    ((processSingleFile cfg fs srcName ⟨.completed rc sout, oc, dk, de, false⟩
        fileNum totalFiles).2
      = (processSingleFile cfg fs srcName ⟨.completed rc sout, oc, dk, de, true⟩
          fileNum totalFiles).2) := by
  refine ⟨?_, ?_, ?_, ?_, ?_⟩
  · rw [processSingleFile_events_notFound]
    simp
  · rw [processSingleFile_events_raised]
    simp
  · intro hrc
    rw [processSingleFile_events_failure hrc]
    simp
  · rw [processSingleFile_events_success]
    simp
  · by_cases hrc : rc = 0
    · subst hrc
      rw [processSingleFile_events_success, processSingleFile_events_success]
    · rw [processSingleFile_events_failure hrc, processSingleFile_events_failure hrc]

theorem error_paths_log_error_witness :
    (Event.log "error" ("HandBrakeCLI executable not found: " ++ "gone")
      ∈ (processSingleFile ⟨"d", "hb", true, "", "p", "mp4"⟩ [] "a.mp4"
          ⟨.notFound "gone", false, true, "x", true⟩ 1 1).2) ∧
    (Event.log "error" ("Processing failed for " ++ "a.mp4" ++ ": " ++ "gone")
      ∈ (processSingleFile ⟨"d", "hb", true, "", "p", "mp4"⟩ [] "a.mp4"
          ⟨.raised "gone", false, true, "x", true⟩ 1 1).2) ∧
    ((1 : Int) ≠ 0 → Event.log "error"
        ("HandBrakeCLI failed for " ++ "a.mp4" ++ " (code " ++ intToString 1 ++ ").")
      ∈ (processSingleFile ⟨"d", "hb", true, "", "p", "mp4"⟩ [] "a.mp4"
          ⟨.completed 1 "out", false, true, "x", true⟩ 1 1).2) ∧
    (Event.log "error" ("Failed to delete source " ++ "a.mp4" ++ ": " ++ "x")
      ∈ (processSingleFile ⟨"d", "hb", true, "", "p", "mp4"⟩ [] "a.mp4"
          ⟨.completed 0 "out", false, false, "x", true⟩ 1 1).2) ∧
    ((processSingleFile ⟨"d", "hb", true, "", "p", "mp4"⟩ [] "a.mp4"
        ⟨.completed 1 "out", false, true, "x", false⟩ 1 1).2
      = (processSingleFile ⟨"d", "hb", true, "", "p", "mp4"⟩ [] "a.mp4"
          ⟨.completed 1 "out", false, true, "x", true⟩ 1 1).2) :=
  error_paths_log_error ⟨"d", "hb", true, "", "p", "mp4"⟩ [] "a.mp4" "gone" "out" "x"
    1 false true true 1 1

theorem processSingleFile_no_progress (cfg : BatchConfig) (fs : List FsPath)
    (srcName : String) (orc : FileOracle) (fileNum totalFiles : Nat) :
    (processSingleFile cfg fs srcName orc fileNum totalFiles).2.filter isProgress = [] := by
  obtain ⟨res, oc, dk, de, uk⟩ := orc
  cases res with
  | notFound m =>
    rw [processSingleFile_events_notFound]
    rfl
  | raised m =>
    rw [processSingleFile_events_raised]
    rfl
  | completed rc sout =>
    by_cases hrc : rc = 0
    · subst hrc
      rw [processSingleFile_events_success]
      cases dk <;> rfl
    · rw [processSingleFile_events_failure hrc]
      rfl

theorem processSingleFile_no_progress100 (cfg : BatchConfig) (fs : List FsPath)
    (srcName : String) (orc : FileOracle) (fileNum totalFiles : Nat) :
    (processSingleFile cfg fs srcName orc fileNum totalFiles).2.filter isProgress100 = [] := by
  obtain ⟨res, oc, dk, de, uk⟩ := orc
  cases res with
  | notFound m =>
    rw [processSingleFile_events_notFound]
    rfl
  | raised m =>
    rw [processSingleFile_events_raised]
    rfl
  | completed rc sout =>
    by_cases hrc : rc = 0
    · subst hrc
      rw [processSingleFile_events_success]
      cases dk <;> rfl
    · rw [processSingleFile_events_failure hrc]
      rfl

theorem processLoop_progress_count (cfg : BatchConfig) :
    ∀ (files : List (String × FileOracle)) (fs : List FsPath) (idx total : Nat),
      ((processLoop cfg fs files idx total none).2.filter isProgress).length = files.length := by
  intro files
  induction files with
  | nil =>
    intro fs idx total
    rfl
  | cons f rest ih =>
    intro fs idx total
    obtain ⟨srcName, orc⟩ := f
    simp only [processLoop]
    rw [if_neg (show (stopSeen none idx = true) → False from fun h => Bool.false_ne_true h)]
    rw [List.filter_append, List.filter_append]
    rw [processSingleFile_no_progress]
    simp only [List.nil_append, List.length_append, List.length_cons]
    rw [ih]
    simp [isProgress]
    omega

/-- C8 counterexample: the partial-output cleanup is only best-effort.  In
the run on folder `d` where the encoder exits with status 1 leaving a
partial file at the allocated output path `d/a_transcoded.mp4` and the
`unlink` call fails, the partial output is still present afterwards,
contradicting the claim that it is removed whenever it exists. -/
theorem partial_output_remains_cex :
    getOutputPath [("d", "a.mp4")] ("d", "a.mp4") "mp4" = ("d", "a_transcoded.mp4") ∧
    ("d", "a_transcoded.mp4") ∈ (processSingleFile ⟨"d", "hb", true, "", "p", "mp4"⟩
        [("d", "a.mp4")] "a.mp4" ⟨.completed 1 "err", true, true, "x", false⟩ 1 1).1 ∧
    ("d", "a.mp4") ∈ (processSingleFile ⟨"d", "hb", true, "", "p", "mp4"⟩
        [("d", "a.mp4")] "a.mp4" ⟨.completed 1 "err", true, true, "x", false⟩ 1 1).1 :=
  ⟨by decide, by decide, by decide⟩

/-- C8 (amended): when the encoder invocation returns a non-zero exit
status, the error is logged with the exit code and the captured output is
logged; the partial output file at the allocated path is absent afterwards
provided the cleanup `unlink` succeeds (the cleanup is best-effort: a
failing unlink is ignored); the source file is preserved; and the batch
continues to the next file: a stop-free loop emits exactly one progress
event per file whatever each file's outcome. -/
theorem encode_failure_keeps_source_and_continues (cfg : BatchConfig) (fs : List FsPath)
    (srcName sout de : String) (rc : Int) (oc dk uk : Bool) (fileNum totalFiles : Nat)
    (hrc : rc ≠ 0) (hsrc : (cfg.folder, srcName) ∈ fs) :
    (Event.log "error" ("HandBrakeCLI failed for " ++ srcName ++ " (code "
        ++ intToString rc ++ ").")
      ∈ (processSingleFile cfg fs srcName ⟨.completed rc sout, oc, dk, de, uk⟩
          fileNum totalFiles).2) ∧
    (Event.log "debug" sout
      ∈ (processSingleFile cfg fs srcName ⟨.completed rc sout, oc, dk, de, uk⟩
          fileNum totalFiles).2) ∧
    (uk = true → getOutputPath fs (cfg.folder, srcName) cfg.outputExt
      ∉ (processSingleFile cfg fs srcName ⟨.completed rc sout, oc, dk, de, uk⟩
          fileNum totalFiles).1) ∧
    ((cfg.folder, srcName)
      ∈ (processSingleFile cfg fs srcName ⟨.completed rc sout, oc, dk, de, uk⟩
          fileNum totalFiles).1) ∧
    (∀ (fs' : List FsPath) (files : List (String × FileOracle)) (idx total : Nat),
      ((processLoop cfg fs' files idx total none).2.filter isProgress).length
        = files.length) := by
  have hout : getOutputPath fs (cfg.folder, srcName) cfg.outputExt ∉ fs :=
    (getOutputPath_spec fs (cfg.folder, srcName) cfg.outputExt).2.1
  have hne : (cfg.folder, srcName) ≠ getOutputPath fs (cfg.folder, srcName) cfg.outputExt := by
    intro h
    rw [← h] at hout
    exact hout hsrc
  refine ⟨?_, ?_, ?_, ?_, ?_⟩
  · rw [processSingleFile_events_failure hrc]
    simp
  · rw [processSingleFile_events_failure hrc]
    simp
  · intro huk
    subst huk
    rw [processSingleFile_fs_failure hrc]
    cases oc with
    | true =>
      show getOutputPath fs (cfg.folder, srcName) cfg.outputExt ∉ (handleTranscodeFailure
        (getOutputPath fs (cfg.folder, srcName) cfg.outputExt :: fs)
        (cfg.folder, srcName) (getOutputPath fs (cfg.folder, srcName) cfg.outputExt)
        rc sout true).1
      simp only [handleTranscodeFailure]
      rw [if_pos (List.mem_cons_self _ _), if_pos (by trivial)]
      rw [List.erase_cons_head]
      exact hout
    | false =>
      show getOutputPath fs (cfg.folder, srcName) cfg.outputExt ∉ (handleTranscodeFailure fs
        (cfg.folder, srcName) (getOutputPath fs (cfg.folder, srcName) cfg.outputExt)
        rc sout true).1
      simp only [handleTranscodeFailure]
      rw [if_neg hout]
      exact hout
  · rw [processSingleFile_fs_failure hrc]
    cases oc with
    | true =>
      show (cfg.folder, srcName) ∈ (handleTranscodeFailure
        (getOutputPath fs (cfg.folder, srcName) cfg.outputExt :: fs)
        (cfg.folder, srcName) (getOutputPath fs (cfg.folder, srcName) cfg.outputExt)
        rc sout uk).1
      simp only [handleTranscodeFailure]
      split_ifs <;>
        first
        | exact (List.mem_erase_of_ne hne).mpr (List.mem_cons_of_mem _ hsrc)
        | exact List.mem_cons_of_mem _ hsrc
    | false =>
      show (cfg.folder, srcName) ∈ (handleTranscodeFailure fs
        (cfg.folder, srcName) (getOutputPath fs (cfg.folder, srcName) cfg.outputExt)
        rc sout uk).1
      simp only [handleTranscodeFailure]
      split_ifs <;>
        first
        | exact (List.mem_erase_of_ne hne).mpr hsrc
        | exact hsrc
  · intro fs' files idx total
    exact processLoop_progress_count cfg files fs' idx total

theorem encode_failure_keeps_source_and_continues_witness :
    ((1 : Int) ≠ 0) ∧ ((("d", "a.mp4") : FsPath) ∈ [(("d", "a.mp4") : FsPath)]) ∧
    ((Event.log "error" ("HandBrakeCLI failed for " ++ "a.mp4" ++ " (code "
        ++ intToString 1 ++ ").")
      ∈ (processSingleFile ⟨"d", "hb", true, "", "p", "mp4"⟩ [("d", "a.mp4")] "a.mp4"
          ⟨.completed 1 "err", true, true, "x", true⟩ 1 1).2) ∧
    (Event.log "debug" "err"
      ∈ (processSingleFile ⟨"d", "hb", true, "", "p", "mp4"⟩ [("d", "a.mp4")] "a.mp4"
          ⟨.completed 1 "err", true, true, "x", true⟩ 1 1).2) ∧
    (true = true → getOutputPath [("d", "a.mp4")] ("d", "a.mp4") "mp4"
      ∉ (processSingleFile ⟨"d", "hb", true, "", "p", "mp4"⟩ [("d", "a.mp4")] "a.mp4"
          ⟨.completed 1 "err", true, true, "x", true⟩ 1 1).1) ∧
    ((("d", "a.mp4") : FsPath)
      ∈ (processSingleFile ⟨"d", "hb", true, "", "p", "mp4"⟩ [("d", "a.mp4")] "a.mp4"
          ⟨.completed 1 "err", true, true, "x", true⟩ 1 1).1) ∧
    (∀ (fs' : List FsPath) (files : List (String × FileOracle)) (idx total : Nat),
      ((processLoop ⟨"d", "hb", true, "", "p", "mp4"⟩ fs' files idx total none).2.filter
        isProgress).length = files.length)) :=
  ⟨by decide, by decide,
    encode_failure_keeps_source_and_continues ⟨"d", "hb", true, "", "p", "mp4"⟩
      [("d", "a.mp4")] "a.mp4" "err" "x" 1 true true true 1 1 (by decide) (by decide)⟩

/-! ### Progress events of a whole run -/

theorem pct_eq_100_iff {idx total : Nat} (h : 0 < total) : pct idx total = 100 ↔ idx = total := by
  rw [pct, if_pos (by omega : total ≠ 0)]
  have ht : (total : ℚ) ≠ 0 := Nat.cast_ne_zero.mpr (by omega)
  constructor
  · intro hq
    have h2 : (idx : ℚ) = (total : ℚ) := by
      field_simp at hq
      linarith
    exact_mod_cast h2
  · rintro rfl
    field_simp

theorem isProgress100_log (lv t : String) : isProgress100 (Event.log lv t) = false := rfl

theorem isProgress100_text (t : String) : isProgress100 (Event.progressText t) = false := rfl

theorem isProgress100_progress (p : ℚ) :
    isProgress100 (Event.progress p) = decide (p = 100) := rfl

theorem isProgress100_hundred : isProgress100 (Event.progress 100) = true := by
  rw [isProgress100_progress]
  exact decide_eq_true rfl

theorem isProgress100_zero : isProgress100 (Event.progress 0) = false := by
  rw [isProgress100_progress]
  exact decide_eq_false (by norm_num)

theorem processLoop_filter100_length (cfg : BatchConfig) :
    ∀ (files : List (String × FileOracle)) (fs : List FsPath) (idx total : Nat)
      (stopAt : Option Nat), 0 < idx → idx + files.length = total + 1 →
      ((processLoop cfg fs files idx total stopAt).2.filter isProgress100).length =
        (if files ≠ [] ∧ stopSeen stopAt total = false then 1 else 0) := by
  intro files
  induction files with
  | nil =>
    intro fs idx total stopAt hidx hlen
    simp [processLoop]
  | cons f rest ih =>
    intro fs idx total stopAt hidx hlen
    obtain ⟨srcName, orc⟩ := f
    have hlen' : idx + rest.length = total := by
      simp only [List.length_cons] at hlen
      omega
    by_cases hstop : stopSeen stopAt idx = true
    · have htot : stopSeen stopAt total = true := by
        cases stopAt with
        | none => exact absurd hstop (fun h => Bool.false_ne_true h)
        | some k =>
          simp only [stopSeen, decide_eq_true_eq] at hstop ⊢
          omega
      simp only [processLoop, if_pos hstop]
      simp [isProgress100_log, htot]
    · simp only [processLoop, if_neg hstop]
      rw [List.filter_append, List.filter_append, List.length_append, List.length_append]
      rw [processSingleFile_no_progress100]
      cases rest with
      | nil =>
        have hidx_eq : idx = total := by
          simp only [List.length_nil, Nat.add_zero] at hlen'
          omega
        subst hidx_eq
        have hpct : pct idx idx = 100 := (pct_eq_100_iff (by omega)).mpr rfl
        have hstop' : stopSeen stopAt idx = false := by
          cases h : stopSeen stopAt idx
          · rfl
          · exact absurd h hstop
        simp [processLoop, isProgress100_progress, isProgress100_text, hpct, hstop']
      | cons g rest2 =>
        have hlt : idx < total := by
          simp only [List.length_cons] at hlen'
          omega
        have hpct : ¬ pct idx total = 100 := by
          rw [pct_eq_100_iff (by omega)]
          omega
        have hrec := ih (processSingleFile cfg fs srcName orc idx total).1 (idx + 1) total
          stopAt (by omega) (by simp only [List.length_cons] at hlen ⊢; omega)
        rw [hrec]
        have hstop' : stopSeen stopAt total = false → True := fun _ => trivial
        simp only [List.length_nil, Nat.zero_add, List.filter_cons,
          isProgress100_progress, decide_eq_false hpct, isProgress100_text,
          List.filter_nil, List.length_nil]
        simp

theorem markDone_filter_isProgress :
    markDoneEvents.filter isProgress = [Event.progress 100] := rfl

theorem markDone_filter100_length :
    (markDoneEvents.filter isProgress100).length = 1 := by
  simp [markDoneEvents, List.filter_cons, isProgress100_log, isProgress100_hundred,
    isProgress100_text]

theorem processFolder_last_progress (cfg : BatchConfig) (fs : List FsPath)
    (files : List (String × FileOracle)) (stopAt : Option Nat) :
    ((processFolder cfg fs files stopAt).2.filter isProgress).getLast? =
      some (Event.progress 100) := by
  cases files with
  | nil =>
    simp only [processFolder, List.filter_append, markDone_filter_isProgress]
    rw [show ([Event.log "info" ("Scanning folder: " ++ cfg.folder),
      Event.log "error" "No video files found in folder."].filter isProgress) = [] from rfl]
    rfl
  | cons f rest =>
    simp only [processFolder, List.filter_append, markDone_filter_isProgress]
    exact List.getLast?_concat _

/-- C2 counterexample: the one-file batch on folder `d` whose single encode
succeeds emits two Progress events with percent 100 — the final per-file
progress report `(1/1) * 100.0` from the loop and the forced 100 of the
done marker — not exactly one as the claim states. -/
theorem two_final_progress_events_cex :
    ((processFolder ⟨"d", "hb", true, "", "p", "mp4"⟩ [("d", "a.mp4")]
        [("a.mp4", ⟨.completed 0 "out", true, true, "", true⟩)] none).2.filter
      isProgress100).length = 2 := by
  simp only [processFolder, List.filter_append, List.length_append]
  rw [show ([("a.mp4", (⟨.completed 0 "out", true, true, "", true⟩ : FileOracle))] :
    List (String × FileOracle)).length = 1 from rfl]
  rw [processLoop_filter100_length ⟨"d", "hb", true, "", "p", "mp4"⟩
    [("a.mp4", ⟨.completed 0 "out", true, true, "", true⟩)] [("d", "a.mp4")] 1 1 none
    (by omega) (by simp)]
  rw [markDone_filter100_length]
  rw [show (([Event.log "info" ("Scanning folder: " ++ "d")] : List Event).filter
    isProgress100) = [] from rfl]
  rw [show (([Event.progress 0, Event.progressText ("0/" ++ natToString 1)] :
    List Event).filter isProgress100) = [] by
      simp [List.filter_cons, isProgress100_zero, isProgress100_text]]
  simp [stopSeen]

/-- C2 (amended): in every run the last progress event has percent 100, and
the count of 100-percent progress events is exactly two when the run
processes all of a non-empty file list (the final per-file report and the
terminal done marker both emit 100), and exactly one when the file list is
empty or the run is stopped before its last file. -/
theorem final_progress_events (cfg : BatchConfig) (fs : List FsPath)
    (files : List (String × FileOracle)) (stopAt : Option Nat) :
    ((processFolder cfg fs files stopAt).2.filter isProgress).getLast? =
      some (Event.progress 100) ∧
    ((processFolder cfg fs files stopAt).2.filter isProgress100).length =
      (if files ≠ [] ∧ stopSeen stopAt files.length = false then 2 else 1) := by
  refine ⟨processFolder_last_progress cfg fs files stopAt, ?_⟩
  cases files with
  | nil =>
    simp only [processFolder, List.filter_append, List.length_append,
      markDone_filter100_length]
    rw [show ([Event.log "info" ("Scanning folder: " ++ cfg.folder),
      Event.log "error" "No video files found in folder."].filter isProgress100) = []
      from rfl]
    simp
  | cons f rest =>
    simp only [processFolder, List.filter_append, List.length_append,
      markDone_filter100_length]
    rw [processLoop_filter100_length cfg (f :: rest) fs 1 (f :: rest).length stopAt
      (by omega) (by simp only [List.length_cons]; omega)]
    rw [show (([Event.log "info" ("Scanning folder: " ++ cfg.folder)] :
      List Event).filter isProgress100) = [] from rfl]
    rw [show (([Event.progress 0,
      Event.progressText ("0/" ++ natToString (f :: rest).length)] :
      List Event).filter isProgress100) = [] by
        simp [List.filter_cons, isProgress100_zero, isProgress100_text]]
    simp only [List.length_nil, Nat.zero_add]
    split_ifs <;> simp_all

/-! ### Cooperative cancellation truncates the run at a file boundary -/

theorem processLoop_stop_truncates (cfg : BatchConfig) (k : Nat) :
    ∀ (files : List (String × FileOracle)) (fs : List FsPath) (idx total : Nat),
      files ≠ [] → k < idx + files.length →
      processLoop cfg fs files idx total (some k) =
        ((processLoop cfg fs (files.take (k - idx)) idx total none).1,
          (processLoop cfg fs (files.take (k - idx)) idx total none).2 ++
            [Event.log "info" "Stopping before next file."]) := by
  intro files
  induction files with
  | nil =>
    intro fs idx total hne
    exact absurd rfl hne
  | cons f rest ih =>
    intro fs idx total hne hk
    obtain ⟨srcName, orc⟩ := f
    by_cases hstop : k ≤ idx
    · have htake : k - idx = 0 := by omega
      rw [htake, List.take_zero]
      simp only [processLoop]
      rw [if_pos (by simp [stopSeen]; omega)]
      rfl
    · have hrest : rest ≠ [] := by
        rintro rfl
        simp only [List.length_cons, List.length_nil] at hk
        omega
      have htake : k - idx = (k - (idx + 1)) + 1 := by omega
      rw [htake, List.take_succ_cons]
      simp only [processLoop]
      rw [if_neg (show (stopSeen (some k) idx = true) → False by
        simp only [stopSeen, decide_eq_true_eq]
        omega)]
      rw [if_neg (show (stopSeen none idx = true) → False from
        fun h => Bool.false_ne_true h)]
      rw [ih (processSingleFile cfg fs srcName orc idx total).1 (idx + 1) total hrest
        (by simp only [List.length_cons] at hk; omega)]
      simp [List.append_assoc]

/-- C9: cancellation is cooperative and observed only at the top of each
per-file iteration.  When the stop flag is first seen at the check before
file `k` (1-indexed, `k ≤ n`), the whole run equals the stop-free run of
the first `k - 1` files — each of those runs to completion — followed by
the stopping log and the terminal done events (100-percent progress and
the `Done` label): the remaining files are left untouched and produce no
events and no filesystem changes, and the run still finishes normally. -/
theorem stop_request_truncates_run (cfg : BatchConfig) (fs : List FsPath)
    (files : List (String × FileOracle)) (k : Nat) (hne : files ≠ [])
    (hk : k ≤ files.length) :
    processFolder cfg fs files (some k) =
      ((processLoop cfg fs (files.take (k - 1)) 1 files.length none).1,
        [Event.log "info" ("Scanning folder: " ++ cfg.folder), Event.progress 0,
          Event.progressText ("0/" ++ natToString files.length)] ++
          (processLoop cfg fs (files.take (k - 1)) 1 files.length none).2 ++
          [Event.log "info" "Stopping before next file."] ++ markDoneEvents) := by
  obtain ⟨f, rest, rfl⟩ := List.exists_cons_of_ne_nil hne
  simp only [processFolder]
  rw [processLoop_stop_truncates cfg k (f :: rest) fs 1 (f :: rest).length (by simp)
    (by simp only [List.length_cons] at hk ⊢; omega)]
  simp [List.append_assoc]

theorem stop_request_truncates_run_witness :
    (([("a.mp4", (⟨.completed 0 "out", true, true, "", true⟩ : FileOracle)),
        ("b.mkv", (⟨.completed 0 "out", true, true, "", true⟩ : FileOracle))] :
      List (String × FileOracle)) ≠ []) ∧
    (2 ≤ ([("a.mp4", (⟨.completed 0 "out", true, true, "", true⟩ : FileOracle)),
        ("b.mkv", (⟨.completed 0 "out", true, true, "", true⟩ : FileOracle))] :
      List (String × FileOracle)).length) ∧
    processFolder ⟨"d", "hb", true, "", "p", "mp4"⟩ [("d", "a.mp4"), ("d", "b.mkv")]
        [("a.mp4", ⟨.completed 0 "out", true, true, "", true⟩),
          ("b.mkv", ⟨.completed 0 "out", true, true, "", true⟩)] (some 2) =
      ((processLoop ⟨"d", "hb", true, "", "p", "mp4"⟩ [("d", "a.mp4"), ("d", "b.mkv")]
          ([("a.mp4", ⟨.completed 0 "out", true, true, "", true⟩),
            ("b.mkv", ⟨.completed 0 "out", true, true, "", true⟩)].take (2 - 1)) 1
          [("a.mp4", (⟨.completed 0 "out", true, true, "", true⟩ : FileOracle)),
            ("b.mkv", (⟨.completed 0 "out", true, true, "", true⟩ : FileOracle))].length
          none).1,
        [Event.log "info" ("Scanning folder: " ++ "d"), Event.progress 0,
          Event.progressText ("0/" ++ natToString
            [("a.mp4", (⟨.completed 0 "out", true, true, "", true⟩ : FileOracle)),
              ("b.mkv", (⟨.completed 0 "out", true, true, "", true⟩ : FileOracle))].length)] ++
          (processLoop ⟨"d", "hb", true, "", "p", "mp4"⟩ [("d", "a.mp4"), ("d", "b.mkv")]
            ([("a.mp4", ⟨.completed 0 "out", true, true, "", true⟩),
              ("b.mkv", ⟨.completed 0 "out", true, true, "", true⟩)].take (2 - 1)) 1
            [("a.mp4", (⟨.completed 0 "out", true, true, "", true⟩ : FileOracle)),
              ("b.mkv", (⟨.completed 0 "out", true, true, "", true⟩ : FileOracle))].length
            none).2 ++
          [Event.log "info" "Stopping before next file."] ++ markDoneEvents) :=
  ⟨by decide, by decide,
    stop_request_truncates_run ⟨"d", "hb", true, "", "p", "mp4"⟩
      [("d", "a.mp4"), ("d", "b.mkv")]
      [("a.mp4", ⟨.completed 0 "out", true, true, "", true⟩),
        ("b.mkv", ⟨.completed 0 "out", true, true, "", true⟩)] 2 (by decide) (by decide)⟩

end TranscodeBatch
